import Mathlib

/-!
Verification of the address-matching core of `merchant_verifier`
(`src/address_matcher.py`).

Strings are modelled as `List Char` (Python `str` is a sequence of code
points).  The Python regex classes `\w` and `\s` and `str.lower()` are
modelled on their ASCII parts; the six Python whitespace characters of
`\s` are included.  The third-party `fuzzywuzzy` similarity functions
(`fuzz.token_sort_ratio`, `fuzz.partial_ratio`, `fuzz.ratio`) are not part
of this repository; they are modelled as an abstract bundle `Fuzz` of
natural-number-valued score functions, and every theorem below is proved
for all such bundles (the spec documents them only as integer scores).
-/

namespace AddrMatch

/-- Python strings, modelled as lists of characters. -/
abbrev Str := List Char

/-- Model of the Python regex class `\w` (ASCII part): letters, digits,
underscore. -/
def isWordChar (c : Char) : Bool :=
  (97 ≤ c.toNat && c.toNat ≤ 122) || (65 ≤ c.toNat && c.toNat ≤ 90) ||
  (48 ≤ c.toNat && c.toNat ≤ 57) || c.toNat == 95

/-- Model of the Python regex class `\s`: space, tab, newline, carriage
return, vertical tab, form feed. -/
def isWsChar (c : Char) : Bool :=
  c.toNat == 32 || c.toNat == 9 || c.toNat == 10 || c.toNat == 13 ||
  c.toNat == 11 || c.toNat == 12

/-- ASCII letter (either case); `[A-Z]` under `re.IGNORECASE`. -/
def isLetterChar (c : Char) : Bool :=
  (97 ≤ c.toNat && c.toNat ≤ 122) || (65 ≤ c.toNat && c.toNat ≤ 90)

/-- ASCII digit; the regex class `[0-9]` / `\d`. -/
def isDigitChar (c : Char) : Bool :=
  48 ≤ c.toNat && c.toNat ≤ 57

/-- Python `str.lower()` on one character (ASCII part). -/
def lowerChar (c : Char) : Char :=
  if 65 ≤ c.toNat && c.toNat ≤ 90 then Char.ofNat (c.toNat + 32) else c

/-- Python `str.lower()`. -/
def lower (s : Str) : Str := s.map lowerChar

/-- Does `p` start the list `s`?  (Used for substring tests and
`str.replace`.) -/
def begins : Str → Str → Bool
  | [], _ => true
  | _ :: _, [] => false
  | a :: as, b :: bs => a == b && begins as bs

/-- Python's substring test `p in s`. -/
def containsSub (p : Str) : Str → Bool
  | [] => begins p []
  | c :: rest => begins p (c :: rest) || containsSub p rest

/-- Python `str.replace(old, new)` (all non-overlapping occurrences, left to
right), driven by a fuel argument so that the recursion is structural.
One character is consumed per step when no occurrence starts here, and
`old.length ≥ 1` characters when one does, so `fuel = s.length` is always
enough. -/
def replGo (old new : Str) : Nat → Str → Str
  | _, [] => []
  | 0, s => s
  | fuel + 1, c :: rest =>
    if begins old (c :: rest) then
      new ++ replGo old new fuel ((c :: rest).drop old.length)
    else
      c :: replGo old new fuel rest

/-- Python `str.replace(old, new)`. -/
def pyReplace (old new s : Str) : Str := replGo old new s.length s

/-- Model of `re.sub(r"[^\w\s]", " ", s)`: a single-character class substitution is
a character-wise map. -/
def subPunct (s : Str) : Str :=
  s.map (fun c => if isWordChar c || isWsChar c then c else ' ')

/-- Model of `re.sub(r"\s+", " ", s)`: collapse every whitespace run to one space.
The flag records whether the previous input character was whitespace. -/
def collapseGo : Bool → Str → Str
  | _, [] => []
  | true, c :: rest =>
    if isWsChar c then collapseGo true rest else c :: collapseGo false rest
  | false, c :: rest =>
    if isWsChar c then ' ' :: collapseGo true rest else c :: collapseGo false rest

/-- Model of `re.sub(r"\s+", " ", s)`. -/
def collapseWs (s : Str) : Str := collapseGo false s

/-- Drop trailing whitespace (structurally, without `reverse`). -/
def dropEndWs : Str → Str
  | [] => []
  | c :: rest =>
    match dropEndWs rest with
    | [] => if isWsChar c then [] else [c]
    | x :: xs => c :: x :: xs

/-- Python `str.strip()`. -/
def stripWs (s : Str) : Str := dropEndWs (s.dropWhile isWsChar)

/-- The ordered replacement table of `normalize_address` (a Python dict
iterated in insertion order). -/
def replacePairs : List (Str × Str) :=
  [("st.".toList, "street".toList), ("st ".toList, "street ".toList),
   ("rd.".toList, "road".toList), ("rd ".toList, "road ".toList),
   ("ave.".toList, "avenue".toList), ("ave ".toList, "avenue ".toList),
   ("dr.".toList, "drive".toList), ("dr ".toList, "drive ".toList),
   ("ln.".toList, "lane".toList), ("ln ".toList, "lane ".toList),
   ("blvd.".toList, "boulevard".toList), ("blvd ".toList, "boulevard ".toList)]

/-- The function `normalize_address` (src/address_matcher.py, lines 29-76): lowercase,
expand the abbreviation table in order, replace `[^\w\s]` by spaces,
collapse whitespace and trim. -/
def normalize_address (s : Str) : Str :=
  if s = [] then []
  else
    let a1 := s.map lowerChar
    let a2 := replacePairs.foldl (fun acc p => pyReplace p.1 p.2 acc) a1
    let a3 := subPunct a2
    stripWs (collapseWs a3)

/-! ### Hand-rolled matchers for the fixed regular expressions of the source

Each Python pattern is translated into a deterministic matcher that mirrors
the engine's leftmost scan, its greedy/lazy quantifier order and its
backtracking on these concrete patterns. -/

/-- Character at index `i`. -/
def charAt (s : Str) (i : Nat) : Option Char := s.get? i

/-- Is the character at `i` a `\w` character? (`false` past the end.) -/
def wordAt (s : Str) (i : Nat) : Bool :=
  match charAt s i with
  | some c => isWordChar c
  | none => false

/-- Boundary `\b` on the side where the adjacent pattern character is a word
character: position `i` is the start of the text or preceded by a
non-word character. -/
def bdBefore (s : Str) (i : Nat) : Bool :=
  i == 0 || !wordAt s (i - 1)

/-- Boundary `\b` after a word character: position `i` is the end of the text or
holds a non-word character. -/
def bdAfter (s : Str) (i : Nat) : Bool :=
  match charAt s i with
  | some c => !isWordChar c
  | none => true

/-- Is the character at `i` an ASCII letter (`[A-Z]` + `IGNORECASE`)? -/
def letterAt (s : Str) (i : Nat) : Bool :=
  match charAt s i with
  | some c => isLetterChar c
  | none => false

/-- Is the character at `i` a digit? -/
def digitAt (s : Str) (i : Nat) : Bool :=
  match charAt s i with
  | some c => isDigitChar c
  | none => false

/-- Is the character at `i` a letter or digit (`[A-Z0-9]` + `IGNORECASE`)? -/
def alnumAt (s : Str) (i : Nat) : Bool := letterAt s i || digitAt s i

/-- Is the character at `i` the literal space of the UK pattern? -/
def spaceAt (s : Str) (i : Nat) : Bool :=
  match charAt s i with
  | some c => c == ' '
  | none => false

/-- Tail `[0-9][A-Z]{2}` of the UK pattern, plus the closing `\b` when
`bd` is set. -/
def ukFixedAt (bd : Bool) (s : Str) (j : Nat) : Bool :=
  digitAt s j && letterAt s (j + 1) && letterAt s (j + 2) &&
  (!bd || bdAfter s (j + 3))

/-- After `[A-Z]{1,2}[0-9]` has consumed up to index `t`, match
`[A-Z0-9]? ?[0-9][A-Z]{2}` (`\b` if `bd`), trying the two optional parts
in the engine's greedy order.  Returns the end index. -/
def ukTail (bd : Bool) (s : Str) (t : Nat) : Option Nat :=
  if alnumAt s t && spaceAt s (t + 1) && ukFixedAt bd s (t + 2) then some (t + 5)
  else if alnumAt s t && ukFixedAt bd s (t + 1) then some (t + 4)
  else if spaceAt s t && ukFixedAt bd s (t + 1) then some (t + 4)
  else if ukFixedAt bd s t then some (t + 3)
  else none

/-- UK postcode pattern `[A-Z]{1,2}[0-9][A-Z0-9]? ?[0-9][A-Z]{2}` at
position `i` (with surrounding `\b` iff `bd`, as in
`extract_address_components`; the locator's pattern has no `\b`).
`[A-Z]{1,2}` is greedy: two letters are tried before one; a one-letter
retry can only succeed when position `i+1` holds a digit, which is
disjoint from the two-letter case. -/
def ukAt (bd : Bool) (s : Str) (i : Nat) : Option Nat :=
  if bd && !bdBefore s i then none
  else if letterAt s i then
    if letterAt s (i + 1) && digitAt s (i + 2) then ukTail bd s (i + 3)
    else if digitAt s (i + 1) then ukTail bd s (i + 2)
    else none
  else none

/-- US zip pattern `[0-9]{5}(?:-[0-9]{4})?` at position `i` (with
surrounding `\b` iff `bd`).  The optional group is greedy. -/
def usAt (bd : Bool) (s : Str) (i : Nat) : Option Nat :=
  if bd && !bdBefore s i then none
  else if digitAt s i && digitAt s (i + 1) && digitAt s (i + 2) &&
          digitAt s (i + 3) && digitAt s (i + 4) then
    if (charAt s (i + 5) == some '-') && digitAt s (i + 6) && digitAt s (i + 7) &&
       digitAt s (i + 8) && digitAt s (i + 9) && (!bd || bdAfter s (i + 10)) then
      some (i + 10)
    else if !bd || bdAfter s (i + 5) then some (i + 5)
    else none
  else none

/-- The locator's combined pattern `(UK|US)` (no word boundaries): the
alternation tries the UK branch first. -/
def postAt (s : Str) (i : Nat) : Option Nat :=
  match ukAt false s i with
  | some e => some e
  | none => usAt false s i

/-- Model of `re.search` from position `lo`: the smallest start `i ≤ n` where the
matcher succeeds, with its end index. -/
def findFrom (m : Nat → Option Nat) (lo n : Nat) : Option (Nat × Nat) :=
  (List.range' lo (n + 1 - lo)).findSome? fun i => (m i).map fun e => (i, e)

/-- Model of `re.finditer`: repeated non-overlapping leftmost search, resuming at
each match's end.  All patterns used here match at least one character,
so `fuel = n + 1` never runs out before the scan is complete. -/
def finditerGo (m : Nat → Option Nat) (n : Nat) : Nat → Nat → List (Nat × Nat)
  | 0, _ => []
  | fuel + 1, i =>
    match findFrom m i n with
    | none => []
    | some (j, e) => (j, e) :: finditerGo m n fuel (max e (j + 1))

/-- Model of `re.finditer` over the whole text of length `n`. -/
def finditer (m : Nat → Option Nat) (n : Nat) : List (Nat × Nat) :=
  finditerGo m n (n + 1) 0

/-- Python slice `s[a:b]`. -/
def slice (s : Str) (a b : Nat) : Str := (s.drop a).take (b - a)

/-- Length of the run of characters satisfying `p` starting at `i`. -/
def runLen (s : Str) (i : Nat) (p : Char → Bool) : Nat :=
  ((s.drop i).takeWhile p).length

/-! ### `extract_address_components` (lines 79-129) -/

/-- The record built by `extract_address_components`; `city` is declared
but never assigned by the code. -/
structure AddressComponents where
  postal_code : Option Str
  city : Option Str
  street : Option Str
  building_number : Option Str
deriving DecidableEq

/-- Building-number pattern `^\s*(\d+[-\w]*)\s`: optional leading
whitespace, a group starting with a digit followed by the maximal run of
word characters and hyphens, and a mandatory following whitespace
character.  Returns the group. -/
def buildingOf (s : Str) : Option Str :=
  match s.dropWhile isWsChar with
  | [] => none
  | c :: rest =>
    if isDigitChar c then
      match rest.dropWhile (fun d => isWordChar d || d == '-') with
      | d :: _ =>
        if isWsChar d then some (c :: rest.takeWhile (fun d => isWordChar d || d == '-'))
        else none
      | [] => none
    else none

/-- Street pattern
`\d+\s+([A-Za-z\s]+?)(?:\s+(?:road|street|...|blvd))?` at position `i`.
Because the trailing group is optional the rest of the pattern always
succeeds, so the lazy class `[A-Za-z\s]+?` captures exactly one
character: the character after the maximal whitespace run when it is a
letter, else (by giving one whitespace character back to the class, which
needs the run to have length at least 2) the last whitespace character.
Returns the raw group. -/
def compStreetAt (s : Str) (i : Nat) : Option Str :=
  if digitAt s i then
    let d := runLen s i isDigitChar
    let j := i + d
    let w := runLen s j isWsChar
    if w = 0 then none
    else
      match charAt s (j + w) with
      | some x =>
        if isLetterChar x then some [x]
        else if 2 ≤ w then
          match charAt s (j + w - 1) with
          | some y => some [y]
          | none => none
        else none
      | none =>
        if 2 ≤ w then
          match charAt s (j + w - 1) with
          | some y => some [y]
          | none => none
        else none
  else none

/-- The function `extract_address_components` (lines 79-129): postal code from the UK
pattern then — only if it found nothing — the US pattern (both with word
boundaries, case-insensitive); building number; heuristic street capture
(stripped); `city` is never assigned. -/
def extract_address_components (address : Str) : AddressComponents :=
  if address = [] then ⟨none, none, none, none⟩
  else
    let n := address.length
    let pc :=
      match findFrom (ukAt true address) 0 n with
      | some (j, e) => some (slice address j e)
      | none =>
        match findFrom (usAt true address) 0 n with
        | some (j, e) => some (slice address j e)
        | none => none
    let bn := buildingOf address
    let st := ((List.range' 0 (n + 1)).findSome? (compStreetAt address)).map stripWs
    ⟨pc, none, st, bn⟩

/-! ### `extract_addresses_from_text` (lines 206-267) -/

/-- Index of the first `>` in the list, if any. -/
def findGt : Str → Option Nat
  | [] => none
  | c :: r => if c == '>' then some 0 else (findGt r).map (· + 1)

/-- Model of `re.sub(r"<[^>]+>", " ", s)`: at each `<`, the greedy class `[^>]+`
runs to the first `>` (which must be at distance at least 2); shorter
retries end on a non-`>` character, so the first `>` is the only possible
end.  Fuel is the length of the text. -/
def tagGo : Nat → Str → Str
  | 0, s => s
  | _ + 1, [] => []
  | fuel + 1, c :: r =>
    if c == '<' then
      match findGt r with
      | some k => if 1 ≤ k then ' ' :: tagGo fuel (r.drop (k + 1)) else c :: tagGo fuel r
      | none => c :: tagGo fuel r
    else c :: tagGo fuel r

/-- Model of `re.sub(r"<[^>]+>", " ", s)`. -/
def stripTags (s : Str) : Str := tagGo s.length s

/-- The cleaned text: tags stripped, whitespace collapsed, trimmed
(lines 219-220). -/
def cleanText (text : Str) : Str := stripWs (collapseWs (stripTags text))

/-- The street keywords of the locator's first pattern, lowercased. -/
def streetKws : List Str :=
  ["road".toList, "street".toList, "avenue".toList, "lane".toList,
   "drive".toList, "plaza".toList, "square".toList, "court".toList]

/-- Try the keyword alternation at position `q` (case-insensitively, in
the written order), requiring the closing `\b`.  Returns the end index. -/
def kwAt (s : Str) (q : Nat) : Option Nat :=
  streetKws.findSome? fun k =>
    if begins k (lower (s.drop q)) && bdAfter s (q + k.length) then some (q + k.length)
    else none

/-- First street pattern
`\d+\s+[A-Za-z\s]+(?:Road|Street|Avenue|Lane|Drive|Plaza|Square|Court)\b`
at position `i`: a digit run, at least one whitespace character, then the
greedy class `[A-Za-z\s]+` gives characters back one at a time until the
keyword alternation matches.  The class also covers the whitespace run,
so giving characters back to `\s+` only offers keyword start positions
that hold whitespace (where no keyword can start); the engine's
exploration order is exactly descending keyword start `q` from the end of
the letter/whitespace run down to `j + 2`. -/
def p1At (s : Str) (i : Nat) : Option Nat :=
  if digitAt s i then
    let d := runLen s i isDigitChar
    let j := i + d
    if runLen s j isWsChar = 0 then none
    else
      let em := j + runLen s j (fun c => isLetterChar c || isWsChar c)
      (List.range' 0 (em - (j + 1))).findSome? fun k => kwAt s (em - k)
  else none

/-- Second street pattern
`\b(?:Road|Street|Avenue|Lane|Drive|Plaza|Square|Court)\b\s+\d+` at
position `i`. -/
def p2At (s : Str) (i : Nat) : Option Nat :=
  if bdBefore s i then
    match kwAt s i with
    | some ke =>
      let w := runLen s ke isWsChar
      let d := runLen s (ke + w) isDigitChar
      if 1 ≤ w && 1 ≤ d then some (ke + w + d) else none
    | none => none
  else none

/-- The near-duplicate filter step of the locator (lines 263-265): append
the context unless its `fuzz.ratio` against an already-collected fragment
exceeds 80. -/
def dedupStep (sim : Str → Str → Nat) (acc : List Str) (ctx : Str) : List Str :=
  if acc.any (fun a => 80 < sim ctx a) then acc else acc ++ [ctx]

/-- The `[pos-100:pos+100]` context window around a postal anchor. -/
def win100 (c : Str) (pos : Nat) : Str :=
  slice c (pos - 100) (min c.length (pos + 100))

/-- The `[pos-50:pos+100]` context window around a street anchor. -/
def win50 (c : Str) (pos : Nat) : Str :=
  slice c (pos - 50) (min c.length (pos + 100))

/-- Anchor start positions of the combined postal pattern. -/
def postalAnchors (c : Str) : List Nat := (finditer (postAt c) c.length).map Prod.fst

/-- Anchor start positions of the first street pattern. -/
def streetAnchors1 (c : Str) : List Nat := (finditer (p1At c) c.length).map Prod.fst

/-- Anchor start positions of the second street pattern. -/
def streetAnchors2 (c : Str) : List Nat := (finditer (p2At c) c.length).map Prod.fst

/-- The function `extract_addresses_from_text` (lines 206-267): clean the text, emit a
±100 window per postal-code match, then for each street-pattern match a
−50/+100 window filtered against everything collected so far.  `sim`
stands for the external `fuzz.ratio`. -/
def extract_addresses_from_text (sim : Str → Str → Nat) (text : Str) : List Str :=
  let c := cleanText text
  let pot := (postalAnchors c).map (win100 c)
  let pot := (streetAnchors1 c).foldl (fun acc pos => dedupStep sim acc (win50 c pos)) pot
  (streetAnchors2 c).foldl (fun acc pos => dedupStep sim acc (win50 c pos)) pot

/-! ### `compare_addresses` (lines 132-203) -/

/-- The external fuzzywuzzy scorers, abstracted: `tokSort` is
`fuzz.token_sort_ratio`, `partSim` is `fuzz.partial_ratio`, `sim` is
`fuzz.ratio`.  The spec documents all three as integer scores in
`[0,100]`; none of the theorems below needs more than that they are
natural numbers. -/
structure Fuzz where
  tokSort : Str → Str → Nat
  partSim : Str → Str → Nat
  sim : Str → Str → Nat

/-- A reference address: the four fields read by `compare_addresses`,
each possibly missing from the mapping (`dict.get` with default `""`). -/
structure RefAddr where
  address_line1 : Option Str
  town : Option Str
  postcode : Option Str
  country : Option Str
deriving DecidableEq

/-- Python's `" ".join` of the non-empty parts (line 161). -/
def joinSp (parts : List Str) : Str :=
  List.intercalate [' '] (parts.filter fun p => !p.isEmpty)

/-- The normalized reference string of lines 155-161. -/
def refStr (r : RefAddr) : Str :=
  normalize_address (joinSp
    [r.address_line1.getD [], r.town.getD [], r.postcode.getD [], r.country.getD []])

/-- The check `has_postal_match` (lines 167-168): non-empty stripped postcode
occurring, lowercased, in the lowercased normalized candidate. -/
def postalOK (r : RefAddr) (nc : Str) : Bool :=
  let pc := stripWs (r.postcode.getD [])
  !pc.isEmpty && containsSub (lower pc) (lower nc)

/-- The check `has_town_match` (lines 171-172). -/
def townOK (r : RefAddr) (nc : Str) : Bool :=
  let t := lower (stripWs (r.town.getD []))
  !t.isEmpty && containsSub t (lower nc)

/-- The check `has_street_match` (lines 175-178). -/
def streetOK (f : Fuzz) (r : RefAddr) (nc : Str) : Bool :=
  let st := lower (stripWs (r.address_line1.getD []))
  !st.isEmpty && decide (70 < f.partSim st (lower nc))

/-- Overall score plus the component bonuses (+20 / +15 / +10),
before any cap (lines 181-189). -/
def rawScore (f : Fuzz) (r : RefAddr) (nc : Str) : Nat :=
  f.tokSort (refStr r) nc + (if postalOK r nc then 20 else 0) +
    (if townOK r nc then 15 else 0) + (if streetOK f r nc then 10 else 0)

/-- The function `compare_addresses` (lines 132-203): empty candidate short-circuits to
`(0, None)`; otherwise raw score, cap at 100, then the postal-required
cap at 60, and the original candidate as matched text. -/
def compare_addresses (f : Fuzz) (r : RefAddr) (cand : Str) (rpm : Bool) :
    Nat × Option Str :=
  if cand.isEmpty then (0, none)
  else
    let nc := normalize_address cand
    let c1 := min (rawScore f r nc) 100
    let c2 := if rpm && !postalOK r nc then min c1 60 else c1
    (c2, some cand)

/-! ### `find_best_address_match` (lines 270-305) -/

/-- One iteration of the candidate loop of lines 294-299: keep the
strictly better `(score, match)` pair (`if score > best_score`). -/
def bestStep (f : Fuzz) (r : RefAddr) (b : Nat × Option Str) (a : Str) :
    Nat × Option Str :=
  let sc := compare_addresses f r a true
  if b.1 < sc.1 then sc else b

/-- The candidate loop of lines 291-299, starting from `(0, None)`. -/
def bestLoop (f : Fuzz) (r : RefAddr) (cands : List Str) : Nat × Option Str :=
  cands.foldl (bestStep f r) (0, none)

/-- The function `find_best_address_match` (lines 270-305): `(0, None)` when the
locator finds nothing, otherwise the best score over all candidates, with
the matched text suppressed below `min_confidence`. -/
def find_best_address_match (f : Fuzz) (r : RefAddr) (text : Str) (minc : Nat) :
    Nat × Option Str :=
  let pot := extract_addresses_from_text f.sim text
  if pot.isEmpty then (0, none)
  else
    let b := bestLoop f r pot
    if b.1 < minc then (b.1, none) else b

/-! ### Derived notions used in theorem statements -/

/-- The confidence `compare_addresses` assigns to one candidate under the
selector's default `require_postal_match = true`. -/
def scoreOf (f : Fuzz) (r : RefAddr) (a : Str) : Nat :=
  (compare_addresses f r a true).1

/-- Running maximum of `compare` scores over a candidate list, started at
`b`. -/
def foldMax (f : Fuzz) (r : RefAddr) (b : Nat) (l : List Str) : Nat :=
  l.foldl (fun mx a => max mx (scoreOf f r a)) b

/-- Maximum `compare` score over a candidate list (`0` for the empty
list). -/
def maxScore (f : Fuzz) (r : RefAddr) (l : List Str) : Nat := foldMax f r 0 l

/-- Declarative form of the locator's duplicate filter: keep each
fragment unless its similarity to an already-collected fragment
(`acc` plus the previously kept ones) exceeds 80. -/
def survivors (sim : Str → Str → Nat) : List Str → List Str → List Str
  | _, [] => []
  | acc, x :: r =>
    if acc.any (fun a => 80 < sim x a) then survivors sim acc r
    else x :: survivors sim (acc ++ [x]) r

/-- A reference mapping with every missing field replaced by the empty
string — the value `dict.get(…, "")` makes `compare_addresses` actually
read. -/
def defaulted (r : RefAddr) : RefAddr :=
  ⟨some (r.address_line1.getD []), some (r.town.getD []),
   some (r.postcode.getD []), some (r.country.getD [])⟩

/-- An abstract scorer assigning 0 everywhere (a value `fuzzywuzzy`
takes on fully dissimilar inputs, e.g. `token_sort_ratio("", "zzz") = 0`). -/
def fuzz0 : Fuzz := ⟨fun _ _ => 0, fun _ _ => 0, fun _ _ => 0⟩

/-- An abstract scorer whose `token_sort_ratio` is the constant 80. -/
def fuzz80 : Fuzz := ⟨fun _ _ => 80, fun _ _ => 0, fun _ _ => 0⟩

/-- A reference mapping with every field missing. -/
def refEmpty : RefAddr := ⟨none, none, none, none⟩

/-- A reference mapping holding only a postcode. -/
def refPostal : RefAddr := ⟨none, none, some ("SW1A 1AA".toList), none⟩

/-- A reference mapping whose postcode contains a hyphen — a character
that normalization always removes from candidates. -/
def refDashPostal : RefAddr := ⟨none, none, some ("SW1A-1AA".toList), none⟩

/-- A text that is exactly one UK postcode. -/
def exUK : Str := "SW1A 1AA".toList

/-- The example address of the spec's end-to-end scenario 2. -/
def exComp : Str := "123 Main St, London, SW1A 1AA".toList

/-! ### Normal-form predicates used by the idempotence analysis -/

/-- Is the first character whitespace? -/
def headWs : Str → Bool
  | [] => false
  | c :: _ => isWsChar c

/-- Is the last character whitespace? -/
def lastWs : Str → Bool
  | [] => false
  | [c] => isWsChar c
  | _ :: c :: r => lastWs (c :: r)

/-- No two adjacent whitespace characters. -/
def noTwoWs : Str → Bool
  | [] => true
  | [_] => true
  | a :: b :: r => !(isWsChar a && isWsChar b) && noTwoWs (b :: r)

/-! ### Character-level lemmas -/

theorem toNat_ofNat_valid (n : Nat) (h : n < 55296) : (Char.ofNat n).toNat = n := by
  have hv : n.isValidChar := Or.inl h
  simp only [Char.ofNat, dif_pos hv, Char.ofNatAux, Char.toNat]
  simp [UInt32.toNat]

theorem lowerChar_toNat (c : Char) :
    (lowerChar c).toNat =
      if 65 ≤ c.toNat ∧ c.toNat ≤ 90 then c.toNat + 32 else c.toNat := by
  by_cases h : 65 ≤ c.toNat ∧ c.toNat ≤ 90
  · rw [if_pos h]
    simp only [lowerChar]
    rw [if_pos (by simp [h.1, h.2])]
    exact toNat_ofNat_valid _ (by omega)
  · rw [if_neg h]
    simp only [lowerChar]
    rw [if_neg (by simpa using h)]

theorem lowerChar_fix (c : Char) (h : ¬(65 ≤ c.toNat ∧ c.toNat ≤ 90)) :
    lowerChar c = c := by
  simp only [lowerChar]
  rw [if_neg (by simpa using h)]

theorem lowerChar_idem (c : Char) : lowerChar (lowerChar c) = lowerChar c := by
  apply lowerChar_fix
  rw [lowerChar_toNat]
  by_cases h : 65 ≤ c.toNat ∧ c.toNat ≤ 90
  · rw [if_pos h]; omega
  · rw [if_neg h]; exact h

theorem isWordChar_iff (c : Char) :
    isWordChar c = true ↔
      (97 ≤ c.toNat ∧ c.toNat ≤ 122) ∨ (65 ≤ c.toNat ∧ c.toNat ≤ 90) ∨
      (48 ≤ c.toNat ∧ c.toNat ≤ 57) ∨ c.toNat = 95 := by
  simp only [isWordChar, Bool.or_eq_true, Bool.and_eq_true, decide_eq_true_eq,
    beq_iff_eq]
  tauto

theorem isWsChar_iff (c : Char) :
    isWsChar c = true ↔
      c.toNat = 32 ∨ c.toNat = 9 ∨ c.toNat = 10 ∨ c.toNat = 13 ∨
      c.toNat = 11 ∨ c.toNat = 12 := by
  simp only [isWsChar, Bool.or_eq_true, beq_iff_eq]
  tauto

theorem isWordChar_lowerChar (c : Char) :
    isWordChar (lowerChar c) = isWordChar c := by
  by_cases h : 65 ≤ c.toNat ∧ c.toNat ≤ 90
  · have hR : isWordChar c = true := (isWordChar_iff c).mpr (Or.inr (Or.inl h))
    have hL : isWordChar (lowerChar c) = true :=
      (isWordChar_iff _).mpr (Or.inl (by rw [lowerChar_toNat, if_pos h]; omega))
    rw [hL, hR]
  · rw [lowerChar_fix c h]

theorem not_ws_of_word (c : Char) (h : isWordChar c = true) : isWsChar c = false := by
  rw [isWordChar_iff] at h
  rw [← Bool.not_eq_true, isWsChar_iff]
  omega

theorem lowerChar_space : lowerChar ' ' = ' ' := by decide

theorem lowerChar_fix_of_not_word (c : Char) (h : isWordChar c = false) :
    lowerChar c = c := by
  apply lowerChar_fix
  rw [← Bool.not_eq_true, isWordChar_iff] at h
  omega

/-! ### Membership lemmas for the normalization pipeline -/

theorem mem_of_begins {p s : Str} (h : begins p s = true) {c : Char} (hc : c ∈ p) :
    c ∈ s := by
  induction p generalizing s with
  | nil => cases hc
  | cons a as ih =>
    cases s with
    | nil => simp [begins] at h
    | cons b bs =>
      simp only [begins, Bool.and_eq_true, beq_iff_eq] at h
      rcases List.mem_cons.mp hc with rfl | hc'
      · exact h.1 ▸ List.mem_cons_self _ _
      · exact List.mem_cons_of_mem _ (ih h.2 hc')

theorem mem_of_containsSub {p s : Str} (h : containsSub p s = true) {c : Char}
    (hc : c ∈ p) : c ∈ s := by
  induction s with
  | nil =>
    cases p with
    | nil => cases hc
    | cons a as => simp [containsSub, begins] at h
  | cons b bs ih =>
    simp only [containsSub, Bool.or_eq_true] at h
    rcases h with h | h
    · exact mem_of_begins h hc
    · exact List.mem_cons_of_mem _ (ih h)

theorem mem_subPunct {s : Str} {c : Char} (h : c ∈ subPunct s) :
    (c ∈ s ∧ (isWordChar c || isWsChar c) = true) ∨ c = ' ' := by
  simp only [subPunct, List.mem_map] at h
  obtain ⟨a, ha, he⟩ := h
  by_cases hw : (isWordChar a || isWsChar a) = true
  · left
    rw [if_pos hw] at he
    exact ⟨he ▸ ha, he ▸ hw⟩
  · right
    rw [if_neg hw] at he
    exact he.symm

theorem mem_collapseGo {s : Str} {fl : Bool} {c : Char} (h : c ∈ collapseGo fl s) :
    (c ∈ s ∧ isWsChar c = false) ∨ c = ' ' := by
  induction s generalizing fl with
  | nil => cases fl <;> cases h
  | cons a r ih =>
    by_cases hw : isWsChar a = true
    · cases fl with
      | true =>
        rw [show collapseGo true (a :: r) = collapseGo true r by
          simp [collapseGo, hw]] at h
        rcases ih h with ⟨h1, h2⟩ | h1
        · exact Or.inl ⟨List.mem_cons_of_mem _ h1, h2⟩
        · exact Or.inr h1
      | false =>
        rw [show collapseGo false (a :: r) = ' ' :: collapseGo true r by
          simp [collapseGo, hw]] at h
        rcases List.mem_cons.mp h with rfl | h'
        · exact Or.inr rfl
        · rcases ih h' with ⟨h1, h2⟩ | h1
          · exact Or.inl ⟨List.mem_cons_of_mem _ h1, h2⟩
          · exact Or.inr h1
    · have hstep : collapseGo fl (a :: r) = a :: collapseGo false r := by
        cases fl <;> simp [collapseGo, hw]
      rw [hstep] at h
      rcases List.mem_cons.mp h with rfl | h'
      · exact Or.inl ⟨List.mem_cons_self _ _, by simpa using hw⟩
      · rcases ih h' with ⟨h1, h2⟩ | h1
        · exact Or.inl ⟨List.mem_cons_of_mem _ h1, h2⟩
        · exact Or.inr h1

theorem mem_dropEndWs {s : Str} {c : Char} (h : c ∈ dropEndWs s) : c ∈ s := by
  induction s with
  | nil => cases h
  | cons a r ih =>
    simp only [dropEndWs] at h
    cases he : dropEndWs r with
    | nil =>
      rw [he] at h
      by_cases hw : isWsChar a = true
      · rw [if_pos hw] at h; cases h
      · rw [if_neg hw] at h
        rcases List.mem_cons.mp h with rfl | h'
        · exact List.mem_cons_self _ _
        · cases h'
    | cons x xs =>
      rw [he] at h
      rcases List.mem_cons.mp h with rfl | h'
      · exact List.mem_cons_self _ _
      · exact List.mem_cons_of_mem _ (ih (he ▸ h'))

theorem mem_stripWs {s : Str} {c : Char} (h : c ∈ stripWs s) : c ∈ s :=
  (List.dropWhile_sublist _).mem (mem_dropEndWs h)

theorem mem_replGo {old new s : Str} {fuel : Nat} {c : Char}
    (h : c ∈ replGo old new fuel s) : c ∈ s ∨ c ∈ new := by
  induction fuel generalizing s with
  | zero =>
    cases s with
    | nil => cases h
    | cons a r => exact Or.inl h
  | succ fuel ih =>
    cases s with
    | nil => cases h
    | cons a r =>
      simp only [replGo] at h
      by_cases hb : begins old (a :: r) = true
      · rw [if_pos hb] at h
        rcases List.mem_append.mp h with h' | h'
        · exact Or.inr h'
        · rcases ih h' with h'' | h''
          · exact Or.inl ((List.drop_sublist _ _).mem h'')
          · exact Or.inr h''
      · rw [if_neg hb] at h
        rcases List.mem_cons.mp h with rfl | h'
        · exact Or.inl (List.mem_cons_self _ _)
        · rcases ih h' with h'' | h''
          · exact Or.inl (List.mem_cons_of_mem _ h'')
          · exact Or.inr h''

theorem mem_pyReplace {old new s : Str} {c : Char} (h : c ∈ pyReplace old new s) :
    c ∈ s ∨ c ∈ new := mem_replGo h

theorem mem_foldl_repl (ps : List (Str × Str)) :
    ∀ (x : Str) (c : Char), c ∈ ps.foldl (fun acc p => pyReplace p.1 p.2 acc) x →
      c ∈ x ∨ ∃ p, p ∈ ps ∧ c ∈ p.2 := by
  induction ps with
  | nil => intro x c h; exact Or.inl h
  | cons q qs ih =>
    intro x c h
    simp only [List.foldl_cons] at h
    rcases ih _ _ h with h' | ⟨p, hp, hcp⟩
    · rcases mem_pyReplace h' with h'' | h''
      · exact Or.inl h''
      · exact Or.inr ⟨q, List.mem_cons_self _ _, h''⟩
    · exact Or.inr ⟨p, List.mem_cons_of_mem _ hp, hcp⟩

/-! ### Whitespace-structure lemmas -/

theorem noTwoWs_cons (a : Char) (x : Str) :
    noTwoWs (a :: x) = (!(isWsChar a && headWs x) && noTwoWs x) := by
  cases x <;> simp [noTwoWs, headWs]

theorem headWs_collapseGo_true (s : Str) : headWs (collapseGo true s) = false := by
  induction s with
  | nil => rfl
  | cons a r ih =>
    by_cases hw : isWsChar a = true
    · rw [show collapseGo true (a :: r) = collapseGo true r by simp [collapseGo, hw]]
      exact ih
    · rw [show collapseGo true (a :: r) = a :: collapseGo false r by
        simp [collapseGo, hw]]
      simpa [headWs] using hw

theorem noTwoWs_collapseGo (s : Str) : ∀ fl, noTwoWs (collapseGo fl s) = true := by
  induction s with
  | nil => intro fl; cases fl <;> rfl
  | cons a r ih =>
    intro fl
    by_cases hw : isWsChar a = true
    · cases fl with
      | true =>
        rw [show collapseGo true (a :: r) = collapseGo true r by simp [collapseGo, hw]]
        exact ih true
      | false =>
        rw [show collapseGo false (a :: r) = ' ' :: collapseGo true r by
          simp [collapseGo, hw]]
        rw [noTwoWs_cons]
        simp [headWs_collapseGo_true, ih true]
    · rw [show collapseGo fl (a :: r) = a :: collapseGo false r by
        cases fl <;> simp [collapseGo, hw]]
      rw [noTwoWs_cons]
      simp [hw, ih false]

theorem collapseGo_fix (s : Str) :
    (∀ c ∈ s, isWsChar c = true → c = ' ') → noTwoWs s = true →
      collapseGo false s = s ∧ (headWs s = false → collapseGo true s = s) := by
  induction s with
  | nil => intro _ _; exact ⟨rfl, fun _ => rfl⟩
  | cons a r ih =>
    intro hsp hnt
    rw [noTwoWs_cons] at hnt
    simp only [Bool.and_eq_true, Bool.not_eq_true', Bool.and_eq_false_iff] at hnt
    have hr := ih (fun c hc => hsp c (List.mem_cons_of_mem _ hc)) hnt.2
    constructor
    · by_cases hw : isWsChar a = true
      · rw [show collapseGo false (a :: r) = ' ' :: collapseGo true r by
          simp [collapseGo, hw]]
        have ha : a = ' ' := hsp a (List.mem_cons_self _ _) hw
        have hhr : headWs r = false := by
          rcases hnt.1 with h | h
          · rw [hw] at h; cases h
          · exact h
        rw [hr.2 hhr, ha]
      · rw [show collapseGo false (a :: r) = a :: collapseGo false r by
          simp [collapseGo, hw]]
        rw [hr.1]
    · intro hh
      simp only [headWs] at hh
      rw [show collapseGo true (a :: r) = a :: collapseGo false r by
        simp [collapseGo, hh]]
      rw [hr.1]

theorem dropWhile_ws_fix (s : Str) (h : headWs s = false) :
    s.dropWhile isWsChar = s := by
  cases s with
  | nil => rfl
  | cons a r =>
    simp only [headWs] at h
    simp [List.dropWhile_cons, h]

theorem dropEndWs_fix (s : Str) (h : lastWs s = false) : dropEndWs s = s := by
  induction s with
  | nil => rfl
  | cons a r ih =>
    cases r with
    | nil =>
      simp only [lastWs] at h
      simp [dropEndWs, h]
    | cons b rs =>
      have h' : lastWs (b :: rs) = false := h
      have e : dropEndWs (b :: rs) = b :: rs := ih h'
      show (match dropEndWs (b :: rs) with
            | [] => if isWsChar a = true then [] else [a]
            | x :: xs => a :: x :: xs) = a :: b :: rs
      rw [e]

theorem stripWs_fix (s : Str) (h1 : headWs s = false) (h2 : lastWs s = false) :
    stripWs s = s := by
  rw [stripWs, dropWhile_ws_fix s h1, dropEndWs_fix s h2]

theorem headWs_dropWhile_ws (s : Str) : headWs (s.dropWhile isWsChar) = false := by
  induction s with
  | nil => rfl
  | cons a r ih =>
    by_cases hw : isWsChar a = true
    · simpa [List.dropWhile_cons, hw] using ih
    · simp [List.dropWhile_cons, hw, headWs]

theorem headWs_dropEndWs (s : Str) (h : headWs s = false) :
    headWs (dropEndWs s) = false := by
  cases s with
  | nil => rfl
  | cons a r =>
    simp only [headWs] at h
    simp only [dropEndWs]
    cases he : dropEndWs r with
    | nil => simp [h, headWs]
    | cons x xs => simp [headWs, h]

theorem lastWs_dropEndWs (s : Str) : lastWs (dropEndWs s) = false := by
  induction s with
  | nil => rfl
  | cons a r ih =>
    simp only [dropEndWs]
    cases he : dropEndWs r with
    | nil =>
      by_cases hw : isWsChar a = true
      · simp [hw, lastWs]
      · simp [hw, lastWs]
    | cons x xs =>
      rw [he] at ih
      simpa [lastWs] using ih

theorem cons_of_dropEndWs_cons {r : Str} {x : Char} {xs : Str}
    (h : dropEndWs r = x :: xs) : ∃ rs, r = x :: rs := by
  cases r with
  | nil => cases h
  | cons c cs =>
    simp only [dropEndWs] at h
    cases he : dropEndWs cs with
    | nil =>
      rw [he] at h
      by_cases hw : isWsChar c = true
      · rw [if_pos hw] at h; cases h
      · rw [if_neg hw] at h
        injection h with h1 _
        exact ⟨cs, by rw [h1]⟩
    | cons y ys =>
      rw [he] at h
      injection h with h1 _
      exact ⟨cs, by rw [h1]⟩

theorem noTwoWs_dropWhile_ws (s : Str) (h : noTwoWs s = true) :
    noTwoWs (s.dropWhile isWsChar) = true := by
  induction s with
  | nil => exact h
  | cons a r ih =>
    rw [noTwoWs_cons] at h
    simp only [Bool.and_eq_true] at h
    by_cases hw : isWsChar a = true
    · simpa [List.dropWhile_cons, hw] using ih h.2
    · rw [dropWhile_ws_fix (a :: r) (by simpa [headWs] using hw)]
      rw [noTwoWs_cons]
      simp [h.1, h.2]

theorem noTwoWs_dropEndWs (s : Str) (h : noTwoWs s = true) :
    noTwoWs (dropEndWs s) = true := by
  induction s with
  | nil => rfl
  | cons a r ih =>
    rw [noTwoWs_cons] at h
    simp only [Bool.and_eq_true] at h
    simp only [dropEndWs]
    cases he : dropEndWs r with
    | nil =>
      by_cases hw : isWsChar a = true
      · simp [hw, noTwoWs]
      · simp [hw, noTwoWs]
    | cons x xs =>
      obtain ⟨rs, hr⟩ := cons_of_dropEndWs_cons he
      have hx : headWs r = isWsChar x := by rw [hr]; rfl
      rw [noTwoWs_cons]
      have h2 : noTwoWs (x :: xs) = true := by rw [← he]; exact ih h.2
      simp only [h2, Bool.and_true]
      have h1 := h.1
      rw [hx] at h1
      simpa [headWs] using h1

/-! ### Characterization of `normalize_address` output -/

theorem normA_chars (s : Str) :
    ∀ c ∈ normalize_address s, (isWordChar c || c == ' ') = true := by
  intro c hc
  simp only [normalize_address] at hc
  by_cases hs : s = []
  · rw [if_pos hs] at hc; cases hc
  · rw [if_neg hs] at hc
    rcases mem_collapseGo (mem_stripWs hc) with ⟨h1, h2⟩ | h1
    · rcases mem_subPunct h1 with ⟨_, h4⟩ | h3
      · rcases Bool.or_eq_true _ _ |>.mp h4 with h5 | h5
        · simp [h5]
        · rw [h5] at h2; cases h2
      · simp [h3]
    · simp [h1]

theorem replace_news_lower :
    ∀ p ∈ replacePairs, ∀ c ∈ p.2, lowerChar c = c := by decide

theorem normA_lowerFix (s : Str) :
    ∀ c ∈ normalize_address s, lowerChar c = c := by
  intro c hc
  simp only [normalize_address] at hc
  by_cases hs : s = []
  · rw [if_pos hs] at hc; cases hc
  · rw [if_neg hs] at hc
    rcases mem_collapseGo (mem_stripWs hc) with ⟨h1, _⟩ | h1
    · rcases mem_subPunct h1 with ⟨h2, _⟩ | h3
      · rcases mem_foldl_repl _ _ _ h2 with h4 | ⟨p, hp, hcp⟩
        · obtain ⟨a, _, ha⟩ := List.mem_map.mp h4
          rw [← ha]; exact lowerChar_idem a
        · exact replace_news_lower p hp c hcp
      · rw [h3]; exact lowerChar_space
    · rw [h1]; exact lowerChar_space

theorem normA_noTwoWs (s : Str) : noTwoWs (normalize_address s) = true := by
  simp only [normalize_address]
  by_cases hs : s = []
  · rw [if_pos hs]; rfl
  · rw [if_neg hs]
    exact noTwoWs_dropEndWs _ (noTwoWs_dropWhile_ws _ (noTwoWs_collapseGo _ false))

theorem normA_headWs (s : Str) : headWs (normalize_address s) = false := by
  simp only [normalize_address]
  by_cases hs : s = []
  · rw [if_pos hs]; rfl
  · rw [if_neg hs]
    exact headWs_dropEndWs _ (headWs_dropWhile_ws _)

theorem normA_lastWs (s : Str) : lastWs (normalize_address s) = false := by
  simp only [normalize_address]
  by_cases hs : s = []
  · rw [if_pos hs]; rfl
  · rw [if_neg hs]
    exact lastWs_dropEndWs _

/-! ### No-op lemmas for the second normalization pass -/

theorem replGo_noop (old new : Str) (fuel : Nat) :
    ∀ s : Str, containsSub old s = false → replGo old new fuel s = s := by
  induction fuel with
  | zero => intro s _; cases s <;> rfl
  | succ fuel ih =>
    intro s h
    cases s with
    | nil => rfl
    | cons a r =>
      simp only [containsSub, Bool.or_eq_false_iff] at h
      simp only [replGo]
      rw [if_neg (by simp [h.1] : ¬begins old (a :: r) = true)]
      rw [ih r h.2]

theorem pyReplace_noop (old new s : Str) (h : containsSub old s = false) :
    pyReplace old new s = s := replGo_noop old new s.length s h

theorem not_contains_dot (s : Str) (old : Str) (hd : '.' ∈ old) :
    containsSub old (normalize_address s) = false := by
  by_contra h
  rw [Bool.not_eq_false] at h
  have hm := normA_chars s '.' (mem_of_containsSub h hd)
  exact absurd hm (by decide)

theorem subPunct_fix (s : Str)
    (h : ∀ c ∈ s, (isWordChar c || c == ' ') = true) : subPunct s = s := by
  induction s with
  | nil => rfl
  | cons a r ih =>
    simp only [subPunct, List.map_cons]
    have ha := h a (List.mem_cons_self _ _)
    have hk : (if isWordChar a || isWsChar a then a else ' ') = a := by
      rcases Bool.or_eq_true _ _ |>.mp ha with h1 | h1
      · rw [if_pos (by simp [h1])]
      · have : a = ' ' := by simpa using h1
        rw [this]; rfl
    rw [hk]
    have hrest := ih (fun c hc => h c (List.mem_cons_of_mem _ hc))
    simp only [subPunct] at hrest
    rw [hrest]

theorem map_lowerChar_fix (s : Str) (h : ∀ c ∈ s, lowerChar c = c) :
    s.map lowerChar = s := by
  induction s with
  | nil => rfl
  | cons a r ih =>
    rw [List.map_cons, h a (List.mem_cons_self _ _),
      ih (fun c hc => h c (List.mem_cons_of_mem _ hc))]

/-! ### Claim C5: idempotence of `normalize` -/

/-- C5 (counterexample): `normalize` is not idempotent.  For the input
`"st,x"` the first pass turns the comma into a space, producing
`"st x"`, and a second pass then expands the freshly created
abbreviation-plus-space `"st "`, producing `"street x"`. -/
theorem C5_counterexample :
    normalize_address ("st,x".toList) = "st x".toList ∧
    normalize_address ("st x".toList) = "street x".toList ∧
    normalize_address (normalize_address ("st,x".toList)) ≠
      normalize_address ("st,x".toList) := by
  refine ⟨by decide, by decide, by decide⟩

/-- C5 (amended): `normalize` is idempotent on every string whose
normalized form contains none of the six space-suffixed abbreviations
`"st "`, `"rd "`, `"ave "`, `"dr "`, `"ln "`, `"blvd "` as a substring.
(The dotted abbreviations can never occur in a normalized string because
normalization removes every `.`; a abbreviation followed by a space is the
single way a second pass can differ.) -/
theorem C5_theorem (s : Str)
    (h1 : containsSub ("st ".toList) (normalize_address s) = false)
    (h2 : containsSub ("rd ".toList) (normalize_address s) = false)
    (h3 : containsSub ("ave ".toList) (normalize_address s) = false)
    (h4 : containsSub ("dr ".toList) (normalize_address s) = false)
    (h5 : containsSub ("ln ".toList) (normalize_address s) = false)
    (h6 : containsSub ("blvd ".toList) (normalize_address s) = false) :
    normalize_address (normalize_address s) = normalize_address s := by
  by_cases hc : normalize_address s = []
  · rw [hc]; rfl
  · have hchars := normA_chars s
    have hlow := normA_lowerFix s
    have hsp : ∀ c ∈ normalize_address s, isWsChar c = true → c = ' ' := by
      intro c hm hw
      rcases Bool.or_eq_true _ _ |>.mp (hchars c hm) with hword | hspc
      · rw [not_ws_of_word c hword] at hw; cases hw
      · simpa using hspc
    show normalize_address (normalize_address s) = normalize_address s
    rw [normalize_address, if_neg hc]
    rw [map_lowerChar_fix _ hlow]
    have e01 := pyReplace_noop ("st.".toList) ("street".toList) _
      (not_contains_dot s _ (by decide))
    have e02 := pyReplace_noop ("st ".toList) ("street ".toList) _ h1
    have e03 := pyReplace_noop ("rd.".toList) ("road".toList) _
      (not_contains_dot s _ (by decide))
    have e04 := pyReplace_noop ("rd ".toList) ("road ".toList) _ h2
    have e05 := pyReplace_noop ("ave.".toList) ("avenue".toList) _
      (not_contains_dot s _ (by decide))
    have e06 := pyReplace_noop ("ave ".toList) ("avenue ".toList) _ h3
    have e07 := pyReplace_noop ("dr.".toList) ("drive".toList) _
      (not_contains_dot s _ (by decide))
    have e08 := pyReplace_noop ("dr ".toList) ("drive ".toList) _ h4
    have e09 := pyReplace_noop ("ln.".toList) ("lane".toList) _
      (not_contains_dot s _ (by decide))
    have e10 := pyReplace_noop ("ln ".toList) ("lane ".toList) _ h5
    have e11 := pyReplace_noop ("blvd.".toList) ("boulevard".toList) _
      (not_contains_dot s _ (by decide))
    have e12 := pyReplace_noop ("blvd ".toList) ("boulevard ".toList) _ h6
    simp only [replacePairs, List.foldl_cons, List.foldl_nil]
    rw [e01, e02, e03, e04, e05, e06, e07, e08, e09, e10, e11, e12]
    rw [subPunct_fix _ hchars]
    rw [collapseWs,
      (collapseGo_fix (normalize_address s) hsp (normA_noTwoWs s)).1]
    exact stripWs_fix _ (normA_headWs s) (normA_lastWs s)

/-- C5 (witness for the amended theorem): a concrete instance whose
normalized form contains no expandable abbreviation. -/
theorem C5_witness :
    (containsSub ("st ".toList) (normalize_address ("123 Main Road".toList)) = false ∧
     containsSub ("rd ".toList) (normalize_address ("123 Main Road".toList)) = false ∧
     containsSub ("ave ".toList) (normalize_address ("123 Main Road".toList)) = false ∧
     containsSub ("dr ".toList) (normalize_address ("123 Main Road".toList)) = false ∧
     containsSub ("ln ".toList) (normalize_address ("123 Main Road".toList)) = false ∧
     containsSub ("blvd ".toList) (normalize_address ("123 Main Road".toList)) = false) ∧
    normalize_address (normalize_address ("123 Main Road".toList)) =
      normalize_address ("123 Main Road".toList) :=
  ⟨⟨by decide, by decide, by decide, by decide, by decide, by decide⟩,
    C5_theorem _ (by decide) (by decide) (by decide) (by decide) (by decide)
      (by decide)⟩

/-! ### Comparator and selector lemmas -/

theorem compare_of_ne_empty (f : Fuzz) (r : RefAddr) (cand : Str) (rpm : Bool)
    (h : cand ≠ []) :
    compare_addresses f r cand rpm =
      ((if (rpm && !postalOK r (normalize_address cand)) = true
        then min (min (rawScore f r (normalize_address cand)) 100) 60
        else min (rawScore f r (normalize_address cand)) 100), some cand) := by
  cases cand with
  | nil => exact absurd rfl h
  | cons a l => rfl

theorem compare_fst_le (f : Fuzz) (r : RefAddr) (cand : Str) (rpm : Bool) :
    (compare_addresses f r cand rpm).1 ≤ 100 := by
  by_cases h : cand = []
  · rw [h]; exact Nat.zero_le _
  · rw [compare_of_ne_empty f r cand rpm h]
    dsimp only
    split
    · omega
    · omega

theorem compare_snd (f : Fuzz) (r : RefAddr) (cand : Str) (rpm : Bool) :
    (compare_addresses f r cand rpm).2 =
      if cand.isEmpty then none else some cand := by
  cases cand <;> rfl

theorem le_foldMax (f : Fuzz) (r : RefAddr) (l : List Str) :
    ∀ b, b ≤ foldMax f r b l := by
  induction l with
  | nil => intro b; exact Nat.le_refl b
  | cons a t ih =>
    intro b
    calc b ≤ max b (scoreOf f r a) := Nat.le_max_left _ _
    _ ≤ foldMax f r (max b (scoreOf f r a)) t := ih _

theorem foldMax_le (f : Fuzz) (r : RefAddr) (l : List Str) :
    ∀ b, b ≤ 100 → foldMax f r b l ≤ 100 := by
  induction l with
  | nil => intro b hb; exact hb
  | cons a t ih =>
    intro b hb
    exact ih _ (Nat.max_le.mpr ⟨hb, compare_fst_le f r a true⟩)

theorem bestLoop_spec (f : Fuzz) (r : RefAddr) (l : List Str) :
    ∀ (b : Nat) (m : Option Str),
      l.foldl (bestStep f r) (b, m) =
        if foldMax f r b l ≤ b then (b, m)
        else (foldMax f r b l,
          l.find? fun a => scoreOf f r a == foldMax f r b l) := by
  induction l with
  | nil =>
    intro b m
    have hfb : foldMax f r b [] = b := rfl
    rw [hfb, if_pos (Nat.le_refl b)]
    rfl
  | cons a t ih =>
    intro b m
    have hstep : List.foldl (bestStep f r) (b, m) (a :: t) =
        List.foldl (bestStep f r) (bestStep f r (b, m) a) t := rfl
    have hfm : foldMax f r b (a :: t) = foldMax f r (max b (scoreOf f r a)) t := rfl
    by_cases hlt : b < scoreOf f r a
    · -- the first candidate strictly improves on b
      have ha : a ≠ [] := by
        intro he
        rw [he] at hlt
        have : scoreOf f r ([] : Str) = 0 := rfl
        omega
      have hsc : compare_addresses f r a true = (scoreOf f r a, some a) := by
        have h2 := compare_snd f r a true
        cases hc : compare_addresses f r a true with
        | mk x y =>
          have : y = some a := by
            rw [hc] at h2
            simpa [ha, List.isEmpty_iff] using h2
          rw [this]
          have : x = scoreOf f r a := by rw [scoreOf, hc]
          rw [this]
      have hb : bestStep f r (b, m) a = (scoreOf f r a, some a) := by
        rw [bestStep, hsc]
        exact if_pos hlt
      rw [hstep, hb, ih]
      have hmax : max b (scoreOf f r a) = scoreOf f r a := by omega
      rw [hfm, hmax]
      have hge : scoreOf f r a ≤ foldMax f r (scoreOf f r a) t := le_foldMax f r t _
      by_cases he : foldMax f r (scoreOf f r a) t ≤ scoreOf f r a
      · -- the overall maximum is the first candidate's score
        have heq : foldMax f r (scoreOf f r a) t = scoreOf f r a := Nat.le_antisymm he hge
        rw [if_pos he, if_neg (by omega), heq]
        have : (scoreOf f r a == scoreOf f r a) = true := by simp
        rw [List.find?_cons, this]
      · rw [if_neg he, if_neg (by omega)]
        have hne : (scoreOf f r a == foldMax f r (scoreOf f r a) t) = false := by
          simp only [beq_eq_false_iff_ne, ne_eq]
          omega
        rw [List.find?_cons, hne]
    · -- the first candidate does not improve on b
      have hb : bestStep f r (b, m) a = (b, m) := by
        rw [bestStep]
        exact if_neg hlt
      rw [hstep, hb, ih]
      have hmax : max b (scoreOf f r a) = b := by omega
      rw [hfm, hmax]
      by_cases he : foldMax f r b t ≤ b
      · rw [if_pos he, if_pos he]
      · rw [if_neg he, if_neg he]
        have hge : b ≤ foldMax f r b t := le_foldMax f r t b
        have hne : (scoreOf f r a == foldMax f r b t) = false := by
          simp only [beq_eq_false_iff_ne, ne_eq]
          omega
        rw [List.find?_cons, hne]

/-! ### Claim C1: boundedness of confidence -/

theorem find_best_fst_le (f : Fuzz) (r : RefAddr) (text : Str) (minc : Nat) :
    (find_best_address_match f r text minc).1 ≤ 100 := by
  simp only [find_best_address_match]
  by_cases hp : (extract_addresses_from_text f.sim text).isEmpty = true
  · rw [if_pos hp]
    exact Nat.zero_le 100
  · rw [if_neg hp]
    have hb : (bestLoop f r (extract_addresses_from_text f.sim text)).1 ≤ 100 := by
      rw [bestLoop, bestLoop_spec]
      split
      · exact Nat.zero_le 100
      · exact foldMax_le f r _ 0 (by omega)
    split
    · exact hb
    · exact hb

/-- C1: for every abstract scorer, reference and input the confidence
returned by `compare_addresses` lies in `[0, 100]`, and so does the score
returned by `find_best_address_match`.  (Scores are natural numbers, so
the lower bound is by construction.) -/
theorem C1_theorem :
    (∀ (f : Fuzz) (r : RefAddr) (cand : Str) (rpm : Bool),
      0 ≤ (compare_addresses f r cand rpm).1 ∧
        (compare_addresses f r cand rpm).1 ≤ 100) ∧
    (∀ (f : Fuzz) (r : RefAddr) (text : Str) (minc : Nat),
      0 ≤ (find_best_address_match f r text minc).1 ∧
        (find_best_address_match f r text minc).1 ≤ 100) :=
  ⟨fun f r cand rpm => ⟨Nat.zero_le _, compare_fst_le f r cand rpm⟩,
   fun f r text minc => ⟨Nat.zero_le _, find_best_fst_le f r text minc⟩⟩

/-! ### Claim C2: postal dominance and order of caps -/

/-- C2: (i) for a non-empty candidate the confidence is literally the
bonus sum clamped at 100 first and then — exactly when
`require_postal_match` holds and the postal check fails — capped at 60;
(ii) for a reference with a non-empty stripped postcode that does not
occur (lowercased) in the lowercased normalized candidate, the
confidence under `require_postal_match = true` is at most 60. -/
theorem C2_theorem :
    (∀ (f : Fuzz) (r : RefAddr) (cand : Str) (rpm : Bool), cand ≠ [] →
      (compare_addresses f r cand rpm).1 =
        if (rpm && !postalOK r (normalize_address cand)) = true
        then min (min (rawScore f r (normalize_address cand)) 100) 60
        else min (rawScore f r (normalize_address cand)) 100) ∧
    (∀ (f : Fuzz) (r : RefAddr) (cand : Str),
      stripWs (r.postcode.getD []) ≠ [] →
      containsSub (lower (stripWs (r.postcode.getD [])))
        (lower (normalize_address cand)) = false →
      (compare_addresses f r cand true).1 ≤ 60) := by
  constructor
  · intro f r cand rpm h
    rw [compare_of_ne_empty f r cand rpm h]
  · intro f r cand _ hsub
    have hpo : postalOK r (normalize_address cand) = false := by
      rw [postalOK]
      simp only [hsub, Bool.and_false]
    by_cases hc : cand = []
    · rw [hc]
      exact Nat.zero_le 60
    · rw [compare_of_ne_empty f r cand true hc]
      dsimp only
      rw [hpo]
      rw [if_pos (show (true && !false) = true from rfl)]
      omega

/-- C2 (witness): the postcode `"SW1A 1AA"` does not occur in the
normalization of `"main road"`, and the confidence is capped at 60. -/
theorem C2_witness :
    ((compare_addresses fuzz0 refPostal ("main road".toList) true).1 =
      if (true && !postalOK refPostal (normalize_address ("main road".toList))) = true
      then min (min (rawScore fuzz0 refPostal
        (normalize_address ("main road".toList))) 100) 60
      else min (rawScore fuzz0 refPostal
        (normalize_address ("main road".toList))) 100) ∧
    (compare_addresses fuzz0 refPostal ("main road".toList) true).1 ≤ 60 :=
  ⟨C2_theorem.1 fuzz0 refPostal _ true (by decide),
   C2_theorem.2 fuzz0 refPostal _ (by decide) (by decide)⟩

/-! ### Claim C7: empty-candidate floor and identity of matched text -/

/-- C7: `compare` on the empty candidate returns exactly `(0, None)` for
every reference, and on a non-empty candidate the matched text is the
original candidate string itself (never a derived snippet or the
normalized form). -/
theorem C7_theorem :
    (∀ (f : Fuzz) (r : RefAddr) (rpm : Bool),
      compare_addresses f r [] rpm = (0, none)) ∧
    (∀ (f : Fuzz) (r : RefAddr) (cand : Str) (rpm : Bool), cand ≠ [] →
      (compare_addresses f r cand rpm).2 = some cand) := by
  constructor
  · intro f r rpm
    rfl
  · intro f r cand rpm h
    rw [compare_of_ne_empty f r cand rpm h]

/-- C7 (witness). -/
theorem C7_witness :
    compare_addresses fuzz0 refPostal [] true = (0, none) ∧
    (compare_addresses fuzz0 refPostal ("abc".toList) true).2 =
      some ("abc".toList) :=
  ⟨C7_theorem.1 fuzz0 refPostal true,
   C7_theorem.2 fuzz0 refPostal _ true (by decide)⟩

/-! ### Claim C6: totality and defaulting of missing fields -/

/-- C6: the embedding of every core function is total by construction
(no exceptional exit exists in the model); a missing reference field is
read as the empty string — `compare` cannot distinguish a missing field
from an empty one — and an empty/missing field simply fails its
component check; empty input yields the all-`None` components record and
the empty normalization. -/
theorem C6_theorem :
    (∀ (f : Fuzz) (r : RefAddr) (cand : Str) (rpm : Bool),
      compare_addresses f r cand rpm = compare_addresses f (defaulted r) cand rpm) ∧
    (∀ (a t c : Option Str) (nc : Str), postalOK ⟨a, t, none, c⟩ nc = false) ∧
    (∀ (a p c : Option Str) (nc : Str), townOK ⟨a, none, p, c⟩ nc = false) ∧
    (∀ (f : Fuzz) (t p c : Option Str) (nc : Str),
      streetOK f ⟨none, t, p, c⟩ nc = false) ∧
    extract_address_components [] = ⟨none, none, none, none⟩ ∧
    normalize_address [] = [] := by
  refine ⟨?_, ?_, ?_, ?_, rfl, rfl⟩
  · intro f r cand rpm
    rcases r with ⟨a, t, p, c⟩
    rfl
  · intro a t c nc
    rfl
  · intro a p c nc
    rfl
  · intro f t p c nc
    rfl

/-! ### Claim C10: unmatchable punctuated reference postcodes -/

/-- C10: when the trimmed reference postcode contains a character that is
neither a word character nor whitespace, that character survives
lowercasing but can never occur in a normalized candidate (whose
characters are only word characters and spaces), so the postal check
fails for every candidate and — with `require_postal_match = true` — the
confidence is at most 60. -/
theorem C10_theorem (r : RefAddr) (b : Char)
    (hb : b ∈ stripWs (r.postcode.getD []))
    (hw : isWordChar b = false) (hs : isWsChar b = false) :
    ∀ (f : Fuzz) (cand : Str),
      postalOK r (normalize_address cand) = false ∧
      (compare_addresses f r cand true).1 ≤ 60 := by
  intro f cand
  have hsub : containsSub (lower (stripWs (r.postcode.getD [])))
      (lower (normalize_address cand)) = false := by
    by_contra hcc
    rw [Bool.not_eq_false] at hcc
    have hbl : lowerChar b ∈ lower (stripWs (r.postcode.getD [])) :=
      List.mem_map_of_mem lowerChar hb
    have hbf : lowerChar b = b := lowerChar_fix_of_not_word b hw
    have hmem : b ∈ lower (normalize_address cand) := by
      rw [← hbf]
      exact mem_of_containsSub hcc hbl
    obtain ⟨c, hc, hce⟩ := List.mem_map.mp hmem
    rcases Bool.or_eq_true _ _ |>.mp (normA_chars cand c hc) with hcw | hcs
    · have : isWordChar (lowerChar c) = true := by
        rw [isWordChar_lowerChar]; exact hcw
      rw [hce, hw] at this
      cases this
    · have hcsp : c = ' ' := by simpa using hcs
      rw [hcsp] at hce
      rw [lowerChar_space] at hce
      rw [← hce] at hs
      exact absurd hs (by decide)
  have hpo : postalOK r (normalize_address cand) = false := by
    rw [postalOK]
    simp only [hsub, Bool.and_false]
  refine ⟨hpo, ?_⟩
  by_cases hc : cand = []
  · rw [hc]
    exact Nat.zero_le 60
  · rw [compare_of_ne_empty f r cand true hc]
    dsimp only
    rw [hpo]
    rw [if_pos (show (true && !false) = true from rfl)]
    omega

/-- C10 (witness): the postcode `"SW1A-1AA"` can never be reported as a
postal match, even against the perfectly plausible candidate
`"sw1a 1aa"`. -/
theorem C10_witness :
    ('-' ∈ stripWs (refDashPostal.postcode.getD []) ∧
     isWordChar '-' = false ∧ isWsChar '-' = false) ∧
    postalOK refDashPostal (normalize_address ("sw1a 1aa".toList)) = false ∧
    (compare_addresses fuzz0 refDashPostal ("sw1a 1aa".toList) true).1 ≤ 60 :=
  ⟨⟨by decide, by decide, by decide⟩,
   (C10_theorem refDashPostal '-' (by decide) (by decide) (by decide)
     fuzz0 ("sw1a 1aa".toList)).1,
   (C10_theorem refDashPostal '-' (by decide) (by decide) (by decide)
     fuzz0 ("sw1a 1aa".toList)).2⟩

/-! ### Claim C4: matched text on zero confidence -/

/-- C4 (counterexample): `compare` violates the invariant — on a
non-empty candidate that scores 0 it still returns the candidate as
matched text, not `None`.  (With the all-empty reference the real
`token_sort_ratio("", "zzz")` is 0, matching the scorer used here.) -/
theorem C4_counterexample :
    (compare_addresses fuzz0 refEmpty ("zzz".toList) true).1 = 0 ∧
    (compare_addresses fuzz0 refEmpty ("zzz".toList) true).2 =
      some ("zzz".toList) ∧
    some ("zzz".toList) ≠ (none : Option Str) :=
  ⟨by decide, by decide, by decide⟩

/-- C4 (amended): `find_best_match` does return `matched_text = None`
whenever its confidence is 0; `compare`, however, returns `None` exactly
when the candidate is empty, and otherwise always returns the candidate
even at confidence 0. -/
theorem C4_theorem :
    (∀ (f : Fuzz) (r : RefAddr) (text : Str) (minc : Nat),
      (find_best_address_match f r text minc).1 = 0 →
        (find_best_address_match f r text minc).2 = none) ∧
    (∀ (f : Fuzz) (r : RefAddr) (cand : Str) (rpm : Bool),
      (compare_addresses f r cand rpm).2 =
        if cand.isEmpty then none else some cand) := by
  constructor
  · intro f r text minc
    simp only [find_best_address_match]
    by_cases hp : (extract_addresses_from_text f.sim text).isEmpty = true
    · rw [if_pos hp]
      intro _
      rfl
    · rw [if_neg hp]
      rw [bestLoop, bestLoop_spec]
      by_cases hm : foldMax f r 0 (extract_addresses_from_text f.sim text) ≤ 0
      · rw [if_pos hm]
        intro _
        split
        · rfl
        · rfl
      · rw [if_neg hm]
        dsimp only
        split
        · intro _
          rfl
        · intro h0
          exact absurd h0 (by omega)
  · intro f r cand rpm
    exact compare_snd f r cand rpm

/-- C4 (witness for the amended theorem): a text with no postal or
street anchor yields no candidates, confidence 0 and no matched text. -/
theorem C4_witness :
    (find_best_address_match fuzz0 refEmpty ("hello".toList) 50).1 = 0 ∧
    (find_best_address_match fuzz0 refEmpty ("hello".toList) 50).2 = none :=
  ⟨by decide, C4_theorem.1 fuzz0 refEmpty ("hello".toList) 50 (by decide)⟩

/-! ### Claim C3: the selector returns the true maximum -/

/-- C3 (counterexample): with `min_confidence = 0` and a candidate list
whose best score is 0, the claim predicts the first maximal candidate as
matched text, but the loop never replaces its initial `(0, None)` because
only strictly greater scores update it — the code returns `(0, None)`. -/
theorem C3_counterexample :
    extract_addresses_from_text fuzz0.sim exUK = [exUK] ∧
    maxScore fuzz0 refEmpty [exUK] = 0 ∧
    ([exUK].find? fun a => scoreOf fuzz0 refEmpty a == 0) = some exUK ∧
    find_best_address_match fuzz0 refEmpty exUK 0 = (0, none) ∧
    (none : Option Str) ≠ some exUK :=
  ⟨by decide, by decide, by decide, by decide, by decide⟩

/-- C3 (amended): with no candidates the result is `(0, None)`; with
candidates the returned score is always the true maximum of the
per-candidate `compare` scores (`require_postal_match` defaulted to
true); below `min_confidence` the matched text is `None` with the score
preserved; at or above `min_confidence` — provided the maximum is
positive — the matched text is the first candidate attaining the
maximum.  (When the maximum is 0 the matched text is `None` even above
threshold, which is where the original claim fails.) -/
theorem C3_theorem (f : Fuzz) (r : RefAddr) (text : Str) (minc : Nat) :
    (extract_addresses_from_text f.sim text = [] →
      find_best_address_match f r text minc = (0, none)) ∧
    (extract_addresses_from_text f.sim text ≠ [] →
      (find_best_address_match f r text minc).1 =
        maxScore f r (extract_addresses_from_text f.sim text)) ∧
    (extract_addresses_from_text f.sim text ≠ [] →
      maxScore f r (extract_addresses_from_text f.sim text) < minc →
      find_best_address_match f r text minc =
        (maxScore f r (extract_addresses_from_text f.sim text), none)) ∧
    (extract_addresses_from_text f.sim text ≠ [] →
      minc ≤ maxScore f r (extract_addresses_from_text f.sim text) →
      0 < maxScore f r (extract_addresses_from_text f.sim text) →
      find_best_address_match f r text minc =
        (maxScore f r (extract_addresses_from_text f.sim text),
         (extract_addresses_from_text f.sim text).find? fun a =>
           scoreOf f r a ==
             maxScore f r (extract_addresses_from_text f.sim text))) := by
  have hloop : bestLoop f r (extract_addresses_from_text f.sim text) =
      if maxScore f r (extract_addresses_from_text f.sim text) ≤ 0
      then ((0 : Nat), (none : Option Str))
      else (maxScore f r (extract_addresses_from_text f.sim text),
        (extract_addresses_from_text f.sim text).find? fun a =>
          scoreOf f r a == maxScore f r (extract_addresses_from_text f.sim text)) :=
    bestLoop_spec f r _ 0 none
  refine ⟨?_, ?_, ?_, ?_⟩
  · intro he
    simp only [find_best_address_match, he]
    rfl
  · intro hne
    have hp : (extract_addresses_from_text f.sim text).isEmpty = false := by
      cases hx : extract_addresses_from_text f.sim text with
      | nil => exact absurd hx hne
      | cons a l => rfl
    simp only [find_best_address_match, hp]
    rw [if_neg (by simp [hp])]
    rw [hloop]
    by_cases hm : maxScore f r (extract_addresses_from_text f.sim text) ≤ 0
    · rw [if_pos hm]
      have h0 : maxScore f r (extract_addresses_from_text f.sim text) = 0 := by
        omega
      rw [h0]
      split
      · rfl
      · rfl
    · rw [if_neg hm]
      split
      · rfl
      · rfl
  · intro hne hlt
    have hp : (extract_addresses_from_text f.sim text).isEmpty = false := by
      cases hx : extract_addresses_from_text f.sim text with
      | nil => exact absurd hx hne
      | cons a l => rfl
    simp only [find_best_address_match, hp]
    rw [if_neg (by simp [hp])]
    rw [hloop]
    by_cases hm : maxScore f r (extract_addresses_from_text f.sim text) ≤ 0
    · rw [if_pos hm]
      have h0 : maxScore f r (extract_addresses_from_text f.sim text) = 0 := by
        omega
      rw [h0]
      rw [if_pos (by omega : (0 : Nat) < minc)]
    · rw [if_neg hm]
      dsimp only
      rw [if_pos hlt]
  · intro hne hge hpos
    have hp : (extract_addresses_from_text f.sim text).isEmpty = false := by
      cases hx : extract_addresses_from_text f.sim text with
      | nil => exact absurd hx hne
      | cons a l => rfl
    simp only [find_best_address_match, hp]
    rw [if_neg (by simp [hp])]
    rw [hloop]
    rw [if_neg (show ¬(maxScore f r (extract_addresses_from_text f.sim text) ≤ 0)
      by omega)]
    dsimp only
    rw [if_neg (show ¬(maxScore f r (extract_addresses_from_text f.sim text) < minc)
      by omega)]

/-- C3 (witness for the amended theorem): one postal-anchored candidate
whose overall similarity is 80 is capped at 60 by the postal rule, and
the selector returns it with its true maximal score. -/
theorem C3_witness :
    find_best_address_match fuzz80 refEmpty exUK 50 =
      (maxScore fuzz80 refEmpty (extract_addresses_from_text fuzz80.sim exUK),
       (extract_addresses_from_text fuzz80.sim exUK).find? fun a =>
         scoreOf fuzz80 refEmpty a ==
           maxScore fuzz80 refEmpty (extract_addresses_from_text fuzz80.sim exUK)) ∧
    find_best_address_match fuzz80 refEmpty exUK 50 = (60, some exUK) :=
  ⟨(C3_theorem fuzz80 refEmpty exUK 50).2.2.2 (by decide) (by decide) (by decide),
   by decide⟩

/-! ### Claim C8: UK-before-US precedence in the component extractor -/

/-- C8: whenever the boundary-checked UK pattern matches anywhere in the
address (case-insensitively, leftmost match `(j, e)`), the extractor's
`postal_code` is exactly that match — the US pattern is never consulted —
and on the spec's example the postal code is `"SW1A 1AA"` with building
number `"123"`. -/
theorem C8_theorem :
    (∀ (addr : Str) (j e : Nat),
      findFrom (ukAt true addr) 0 addr.length = some (j, e) →
      (extract_address_components addr).postal_code = some (slice addr j e)) ∧
    (extract_address_components exComp).postal_code = some ("SW1A 1AA".toList) ∧
    (extract_address_components exComp).building_number = some ("123".toList) := by
  refine ⟨?_, by decide, by decide⟩
  intro addr j e h
  by_cases ha : addr = []
  · rw [ha] at h
    have hnone : findFrom (ukAt true ([] : Str)) 0 ([] : Str).length = none := by
      decide
    rw [hnone] at h
    exact Option.noConfusion h
  · rw [extract_address_components, if_neg ha]
    dsimp only
    rw [h]

/-- C8 (witness): on the spec's example the UK search finds the span
`(21, 29)` and the extractor reports exactly that slice. -/
theorem C8_witness :
    findFrom (ukAt true exComp) 0 exComp.length = some (21, 29) ∧
    (extract_address_components exComp).postal_code = some (slice exComp 21 29) :=
  ⟨by decide, C8_theorem.1 exComp 21 29 (by decide)⟩

/-! ### Claim C9: structure of the candidate locator -/

theorem foldl_dedup (sim : Str → Str → Nat) (l : List Str) :
    ∀ acc, l.foldl (dedupStep sim) acc = acc ++ survivors sim acc l := by
  induction l with
  | nil => intro acc; simp [survivors]
  | cons x r ih =>
    intro acc
    rw [List.foldl_cons]
    by_cases h : acc.any (fun a => 80 < sim x a) = true
    · rw [show dedupStep sim acc x = acc by simp [dedupStep, h]]
      rw [ih acc]
      rw [show survivors sim acc (x :: r) = survivors sim acc r by
        simp [survivors, h]]
    · rw [show dedupStep sim acc x = acc ++ [x] by simp [dedupStep, h]]
      rw [ih (acc ++ [x])]
      rw [show survivors sim acc (x :: r) = x :: survivors sim (acc ++ [x]) r by
        simp [survivors, h]]
      simp

/-- C9: the locator's output is exactly the ±100 windows around the
postal anchors of the cleaned text (in document order), followed by the
street-pattern windows (first pattern's matches before the second's,
each −50/+100), where a street window survives exactly when its
similarity to every already-collected fragment is at most 80. -/
theorem C9_theorem (sim : Str → Str → Nat) (text : Str) :
    extract_addresses_from_text sim text =
      (postalAnchors (cleanText text)).map (win100 (cleanText text)) ++
        survivors sim
          ((postalAnchors (cleanText text)).map (win100 (cleanText text)))
          ((streetAnchors1 (cleanText text)).map (win50 (cleanText text)) ++
            (streetAnchors2 (cleanText text)).map (win50 (cleanText text))) := by
  simp only [extract_addresses_from_text]
  have hm : ∀ (ancs : List Nat) (init : List Str),
      ancs.foldl (fun acc pos => dedupStep sim acc (win50 (cleanText text) pos))
          init =
        (ancs.map (win50 (cleanText text))).foldl (dedupStep sim) init := by
    intro ancs init
    rw [List.foldl_map]
  rw [hm, hm, ← List.foldl_append]
  exact foldl_dedup sim _ _

end AddrMatch
